import Mathlib

/-!
Verification of the band-structure / DOS reconstruction core of pydass_vasp.

This file is a shallow embedding, in Lean 4, of the core functions of
plotting/bs.py (find_band_edges, get_reduced_effective_mass, and the
metadata-resolution, k-axis linearization and eigenvalue-extraction phases of
plot_bs) and of the metadata-resolution and extraction phases of
electronic_structure/dos.py (get_tdos).

Modelling conventions:
- Python float values are modelled as rationals where only comparisons and
  exact arithmetic occur, and as reals where square roots and pi occur
  (every finite IEEE float is a rational, so nothing is lost).
- File contents are modelled at the granularity the code consumes them:
  a sidecar file is `Option` of the parsed value it would yield, with `none`
  standing for a file whose `open` raises IOError.
- Numpy arrays are modelled as lists; numpy slicing is drop/take.
-/

namespace PydassVasp


/-- Python truthiness of an optional integer argument, as tested by
`if ISPIN:` in bs.py lines 144/186 and dos.py line 46/76: `None` and `0` are
falsy, every other integer is truthy. -/
def truthyInt : Option ℤ → Bool
  | none => false
  | some v => v != 0

/-- Python truthiness of an optional float argument (`if Ef:`, bs.py lines
149/191): `None` and `0.0` are falsy. -/
def truthyRat : Option ℚ → Bool
  | none => false
  | some v => v != 0

/-- Python truthiness of an optional nonneg integer (`if N_kps_per_section:`,
bs.py line 220). -/
def truthyNat : Option ℕ → Bool
  | none => false
  | some v => v != 0

/-- Python truthiness of an optional list (`if reciprocal_points:`, bs.py
lines 162/238): `None` and the empty list are falsy. -/
def truthyList : Option (List String) → Bool
  | none => false
  | some l => !l.isEmpty

/-- Errors surfaced by the resolution phase: the IOError raised when every
file source of a required field is absent. -/
inductive ResolveErr
  | ioError (msg : String)
deriving DecidableEq, Repr

/-- ISPIN resolution in plot_bs, bs.py lines 144-148 (xml branch) and 186-189
(EIGENVAL branch): `if ISPIN: <keep> else: ISPIN = <file value>`. `fileVal`
is the value the branch reads when the argument is falsy: the ISPIN node of
vasprun.xml, or the result of determine_tag_value over OUTCAR/INCAR (a helper
defined outside this repository, represented by the value it returns). -/
def resolveISPIN (explicit : Option ℤ) (fileVal : ℤ) : ℤ :=
  if truthyInt explicit then explicit.getD 0 else fileVal

/-- Ef resolution in the xml branch of plot_bs, bs.py lines 149-152:
`if Ef: <keep> else: Ef = float(root.find(...efermi...).text)`. -/
def resolveEf_bsXml (explicit : Option ℚ) (fileVal : ℚ) : ℚ :=
  if truthyRat explicit then explicit.getD 0 else fileVal

/-- Ef resolution in the EIGENVAL branch of plot_bs, bs.py lines 191-207.
When the argument is falsy the code opens OUTCAR and assigns Ef from every
line matching the E-fermi pattern (no break, so the last match wins; if no
line matches, Ef silently keeps its previous value). If OUTCAR is absent it
reads DOSCAR line 6 token 4, and if DOSCAR is also absent it raises IOError.
`outcarMatches = none` models a missing OUTCAR; `some ms` models a present
OUTCAR whose matching-line values are `ms` in file order. -/
def resolveEf_eigenval (explicit : Option ℚ) (outcarMatches : Option (List ℚ))
    (doscarEf : Option ℚ) : Except ResolveErr (Option ℚ) :=
  if truthyRat explicit then .ok explicit
  else
    match outcarMatches with
    | some ms => .ok (ms.getLast?.orElse fun _ => explicit)
    | none =>
      match doscarEf with
      | some v => .ok (some v)
      | none => .error (.ioError "Cant determine Ef!")

/-- N_kps_per_section resolution in the xml branch of plot_bs, bs.py line
155: the value is assigned from the divisions node unconditionally; the
caller-supplied argument is never consulted in this branch. -/
def resolveNkps_bsXml (_explicit : Option ℕ) (fileVal : ℕ) : ℕ :=
  fileVal

/-- N_kps_per_section resolution in the EIGENVAL branch of plot_bs, bs.py
lines 220-229: a truthy argument wins; otherwise KPOINTS line 2 is read as an
integer, and a missing KPOINTS raises IOError. -/
def resolveNkps_eigenval (explicit : Option ℕ) (kpointsVal : Option ℕ) :
    Except ResolveErr ℕ :=
  if truthyNat explicit then .ok (explicit.getD 0)
  else
    match kpointsVal with
    | some v => .ok v
    | none => .error (.ioError "Cant determine number of k-points per line section!")

/-- N_bands resolution in plot_bs, bs.py lines 154 (xml) and 215 (EIGENVAL):
always read from the primary file; plot_bs has no parameter for it, so no
explicit override exists. -/
def resolveNbands (fileVal : ℕ) : ℕ :=
  fileVal

/-- Ef resolution in get_tdos, dos.py line 45 (xml branch) and line 75
(DOSCAR branch): Ef is assigned from the file unconditionally in both
branches; the caller-supplied argument is never consulted. -/
def resolveEf_tdos (_explicit : Option ℚ) (fileVal : ℚ) : ℚ :=
  fileVal

/-- ISPIN resolution in get_tdos, dos.py lines 46-50 (xml) and 76-79
(DOSCAR): `if ISPIN: <keep> else: ISPIN = <file value>`. -/
def resolveISPIN_tdos (explicit : Option ℤ) (fileVal : ℤ) : ℤ :=
  if truthyInt explicit then explicit.getD 0 else fileVal

/-! Embedding of find_band_edges (bs.py lines 10-29). -/

/-- Python-level runtime errors surfaced by the embedded numpy code. -/
inductive PyErr
  | indexError
  | typeError
deriving DecidableEq, Repr

/-- Indices at which the boolean mask holds, in increasing order: the single
component of the tuple np.where (equivalently np.nonzero) returns for a 1-D
mask. -/
def trueIndices (mask : List Bool) : List ℕ :=
  (List.range mask.length).filter fun i => mask.getD i false

/-- np.where applied to a 1-D mask returns a tuple of length one whose only
component is the index array; the tuple is modelled as a list of index
lists. -/
def npWhere1d (mask : List Bool) : List (List ℕ) :=
  [trueIndices mask]

/-- Embedding of find_band_edges (bs.py lines 10-29). The code prints two
index expressions, each of the form np.where(mask)[1] over the row
E[kp_edge]; the valence mask is (E > -prec_range) and (E < 0), the conduction
mask is (E < prec_range) and (E > 0). The two printed values are returned as
a pair, propagating IndexError when a tuple index is out of range (the
function itself returns None in Python; its observable output is what it
prints). -/
def find_band_edges (kp_edge : ℕ) (prec_range : ℚ) (E : List (List ℚ)) :
    Except PyErr (List ℕ × List ℕ) := do
  let row := E.getD kp_edge []
  let valenceMask := row.map fun x => decide (x > -prec_range) && decide (x < 0)
  let valence ← match (npWhere1d valenceMask).get? 1 with
    | some v => Except.ok v
    | none => Except.error .indexError
  let conductionMask := row.map fun x => decide (x < prec_range) && decide (x > 0)
  let conduction ← match (npWhere1d conductionMask).get? 1 with
    | some v => Except.ok v
    | none => Except.error .indexError
  return (valence, conduction)

/-! Embedding of the eigenvalue extraction and Fermi shift (bs.py lines
302-334, dos.py lines 68-98). -/

/-- Raw eigenvalue read from the tokenized EIGENVAL lines, bs.py lines 307,
314-315: EIGENVAL[8 + band + (N_bands + 2) * kp][col], where col is 1 for
spin channel 1 and 2 for spin channel 2. Lines are modelled as token lists of
rationals; a missing line or token is read as 0 (the source would raise
IndexError there, which no claim exercises). -/
def eigenvalEntry (lines : List (List ℚ)) (N_bands kp band col : ℕ) : ℚ :=
  (lines.getD (8 + band + (N_bands + 2) * kp) []).getD col 0

/-- Raw eigenvalue table of one spin channel, bs.py lines 303-315: the
(N_kps, N_bands) array E with E[kp, band] taken from column col of the
k-point block. -/
def extractE_eigenval (lines : List (List ℚ)) (N_kps N_bands col : ℕ) :
    List (List ℚ) :=
  (List.range N_kps).map fun kp =>
    (List.range N_bands).map fun band => eigenvalEntry lines N_bands kp band col

/-- Fermi shift of a whole table, bs.py lines 319 and 333-334 (E -= Ef): the
shift is applied to every entry of the freshly built table, once, at
construction. -/
def shiftByEf (E : List (List ℚ)) (Ef : ℚ) : List (List ℚ) :=
  E.map fun row => row.map fun x => x - Ef

/-- Energy table produced by the EIGENVAL branch of plot_bs for one spin
channel: extraction followed by the single Fermi shift. -/
def bsEnergyTable (lines : List (List ℚ)) (N_kps N_bands col : ℕ) (Ef : ℚ) :
    List (List ℚ) :=
  shiftByEf (extractE_eigenval lines N_kps N_bands col) Ef

/-- Raw DOS rows of the DOSCAR branch of get_tdos, dos.py line 81:
data = DOSCAR[6 : 6 + NEDOS]. -/
def tdosData (lines : List (List ℚ)) (NEDOS : ℕ) : List (List ℚ) :=
  (lines.drop 6).take NEDOS

/-- Fermi shift of the energy column only, dos.py lines 89 and 94-95
(data[:, 0] -= Ef): column 0 of every row is shifted, the density columns are
untouched. -/
def shiftCol0 (data : List (List ℚ)) (Ef : ℚ) : List (List ℚ) :=
  data.map fun row =>
    match row with
    | [] => []
    | x :: rest => (x - Ef) :: rest

/-- DOS table produced by the DOSCAR branch of get_tdos (ISPIN = 1): raw rows
with the energy column shifted once. -/
def tdosTable (lines : List (List ℚ)) (NEDOS : ℕ) (Ef : ℚ) : List (List ℚ) :=
  shiftCol0 (tdosData lines NEDOS) Ef

/-! Embedding of the k-axis linearization (bs.py lines 247-262). -/

/-- Reciprocal-space point, one row of the (N_kps, 3) kps array. -/
structure Point3 where
  x : ℝ
  y : ℝ
  z : ℝ

instance : Inhabited Point3 := ⟨⟨0, 0, 0⟩⟩

/-- Euclidean norm of the difference p - q of two 3-vectors, as in
np.linalg.norm(section_pair[1] - section_pair[0]) at bs.py line 258. -/
noncomputable def norm3 (p q : Point3) : ℝ :=
  Real.sqrt ((p.x - q.x) ^ 2 + (p.y - q.y) ^ 2 + (p.z - q.z) ^ 2)

/-- Endpoint pair of one path section, bs.py lines 249-252:
kp_section_pairs[section] = [kps[N * section], kps[N * (section + 1) - 1]]. -/
def sectionPair (kps : List Point3) (N s : ℕ) : Point3 × Point3 :=
  (kps.getD (N * s) default, kps.getD (N * (s + 1) - 1) default)

/-- Straight-line length of section s: the norm of (last endpoint - first
endpoint), bs.py line 258. -/
noncomputable def sectionLen (kps : List Point3) (N s : ℕ) : ℝ :=
  norm3 (sectionPair kps N s).2 (sectionPair kps N s).1

/-- Cumulative boundary position of section s, bs.py lines 255-259:
reciprocal_point_locations[0] = 0 and
reciprocal_point_locations[s + 1] = reciprocal_point_locations[s] +
section length of s. -/
noncomputable def boundaryPos (kps : List Point3) (N : ℕ) : ℕ → ℝ
  | 0 => 0
  | s + 1 => boundaryPos kps N s + sectionLen kps N s

/-- The reciprocal_point_locations array as a list of length nsec + 1. -/
noncomputable def reciprocal_point_locations (kps : List Point3) (N nsec : ℕ) :
    List ℝ :=
  (List.range (nsec + 1)).map (boundaryPos kps N)

/-- np.linspace(a, b, num) with the default inclusive endpoint: num evenly
spaced samples from a to b; for num = 1 numpy returns the single sample
[a]. -/
noncomputable def linspace (a b : ℝ) (num : ℕ) : List ℝ :=
  if num = 1 then [a]
  else (List.range num).map fun i : ℕ => a + (i : ℝ) * (b - a) / ((num : ℝ) - 1)

/-- Linearized k-point axis, bs.py lines 256-262: section s contributes
N_kps_per_section evenly spaced values between its two boundary positions,
and the per-section rows are flattened in section order. -/
noncomputable def kps_linearized (kps : List Point3) (N nsec : ℕ) : List ℝ :=
  ((List.range nsec).map fun s =>
    linspace (boundaryPos kps N s) (boundaryPos kps N (s + 1)) N).flatten

/-- Error of the xml-branch shape assert. -/
inductive BsErr
  | assertKpMismatch
deriving DecidableEq, Repr

/-- Consistency assert of the xml branch, bs.py lines 158-159: the product of
N_kps_per_section and N_kp_sections must equal N_kps. -/
def checkKpCountXml (N nsec nkps : ℕ) : Except BsErr Unit :=
  if N * nsec = nkps then .ok () else .error .assertKpMismatch

/-- Section count of the EIGENVAL branch, bs.py line 231: Python 2 integer
floor division N_kps / N_kps_per_section; this branch performs no
consistency check. -/
def sectionCountEigenval (N_kps N : ℕ) : ℕ :=
  N_kps / N

/-- Axis the EIGENVAL branch builds from its floor-divided section count. -/
noncomputable def bsAxisEigenval (kps : List Point3) (N_kps N : ℕ) : List ℝ :=
  kps_linearized kps N (sectionCountEigenval N_kps N)

/-! Embedding of get_reduced_effective_mass (bs.py lines 32-71). -/

/-- Reduced Planck constant as written at bs.py line 54. -/
noncomputable def h_bar : ℝ := 1.054571726e-34

/-- Elementary charge as written at bs.py line 55 (source name e). -/
noncomputable def e_charge : ℝ := 1.6021176462e-19

/-- Electron rest mass as written at bs.py line 56. -/
noncomputable def m_e : ℝ := 9.10938291e-31

/-- Unit-scaling constant as written at bs.py line 57. -/
noncomputable def scaling_const : ℝ := 6.3743775177e-10

/-- Power sum of the sample abscissas, the moments entering the normal
equations of the degree-2 least-squares problem np.polyfit solves. -/
noncomputable def powSum (xs : List ℝ) (k : ℕ) : ℝ :=
  (xs.map fun x => x ^ k).sum

/-- Mixed moment of abscissas and ordinates. -/
noncomputable def mixSum (xs ys : List ℝ) (k : ℕ) : ℝ :=
  (List.zipWith (fun x y => x ^ k * y) xs ys).sum

/-- Abscissa power sum restricted to the zipped pairs (equal to powSum when
the two sample lists have equal length). -/
noncomputable def zipPowSum (xs ys : List ℝ) (k : ℕ) : ℝ :=
  (List.zipWith (fun x _ => x ^ k) xs ys).sum

/-- Determinant of the 3 x 3 normal matrix of the degree-2 least-squares
problem on abscissas xs. -/
noncomputable def normalDet (xs : List ℝ) : ℝ :=
  powSum xs 4 * (powSum xs 2 * powSum xs 0 - powSum xs 1 * powSum xs 1)
    - powSum xs 3 * (powSum xs 3 * powSum xs 0 - powSum xs 1 * powSum xs 2)
    + powSum xs 2 * (powSum xs 3 * powSum xs 1 - powSum xs 2 * powSum xs 2)

/-- Quadratic coefficient p[2] of np.polyfit(xs, ys, 2), in Cramer form over
the normal equations. Whenever normalDet xs is nonzero this is the unique
least-squares quadratic coefficient (proved below); in the rank-deficient
case numpy returns a finite minimum-norm solution without raising, and this
form is likewise total (Lean division by zero is zero). -/
noncomputable def fitA (xs ys : List ℝ) : ℝ :=
  (mixSum xs ys 2 * (powSum xs 2 * powSum xs 0 - powSum xs 1 * powSum xs 1)
    - mixSum xs ys 1 * (powSum xs 3 * powSum xs 0 - powSum xs 2 * powSum xs 1)
    + mixSum xs ys 0 * (powSum xs 3 * powSum xs 1 - powSum xs 2 * powSum xs 2))
    / normalDet xs

/-- Sum of squared residuals of the quadratic model a x^2 + b x + c over the
zipped samples. -/
noncomputable def residualSum (xs ys : List ℝ) (a b c : ℝ) : ℝ :=
  (List.zipWith (fun x y => (y - (a * x ^ 2 + b * x + c)) ^ 2) xs ys).sum

/-- The coefficients (a, b, c) are a least-squares degree-2 fit of the
samples: no other coefficients give a smaller residual sum. -/
def IsLeastSquaresFit (xs ys : List ℝ) (a b c : ℝ) : Prop :=
  ∀ a2 b2 c2, residualSum xs ys a b c ≤ residualSum xs ys a2 b2 c2

/-- Gradient component of the residual sum in the coefficient direction of
x^k (one half of minus the partial derivative). -/
noncomputable def gradSum (xs ys : List ℝ) (a b c : ℝ) (k : ℕ) : ℝ :=
  (List.zipWith (fun x y => x ^ k * (y - (a * x ^ 2 + b * x + c))) xs ys).sum

/-- Slice kps_linearized[kp_start : kp_end + 1], bs.py line 60. -/
def selectedKps (kp_start kp_end : ℕ) (kps_lin : List ℝ) : List ℝ :=
  (kps_lin.drop kp_start).take (kp_end + 1 - kp_start)

/-- Slice E[kp_start : kp_end + 1, band], bs.py line 61. -/
def selectedEnergies (band kp_start kp_end : ℕ) (E : List (List ℝ)) : List ℝ :=
  ((E.drop kp_start).take (kp_end + 1 - kp_start)).map fun row => row.getD band 0

/-- Embedding of get_reduced_effective_mass, bs.py lines 32-71. The selected
axis slice and band column are fitted by np.polyfit(x, y, 2), which raises
TypeError on an empty x or mismatched sample lengths and otherwise returns
the least-squares coefficients; a rank-deficient fit only emits RankWarning,
which is not an exception. The returned quantity (lines 69-70) is
h_bar^2 / (e * p[2] / (2 * pi / scaling_const)^2) / m_e with p[2] the fitted
quadratic coefficient; the prints and the plot of the fitted parabola have no
effect on the returned value. -/
noncomputable def get_reduced_effective_mass (band kp_start kp_end : ℕ)
    (kps_lin : List ℝ) (E : List (List ℝ)) : Except PyErr ℝ :=
  let xs := selectedKps kp_start kp_end kps_lin
  let ys := selectedEnergies band kp_start kp_end E
  if xs.isEmpty then .error .typeError
  else if xs.length != ys.length then .error .typeError
  else .ok (h_bar ^ 2
    / (e_charge * fitA xs ys / (2 * Real.pi / scaling_const) ^ 2) / m_e)

/-! Embedding of the path-point label resolution (bs.py lines 162-178, xml
branch, and lines 233-245, EIGENVAL branch). -/

/-- Label resolution of the xml branch, bs.py lines 162-178. A truthy
explicit list wins. Otherwise OUTCAR is scanned for the marker line
(k-points in units of 2pi/SCALE and weight:): outcarLabels = none models a
missing OUTCAR (IOError, caught), some none an OUTCAR with no marker line
(the scan ends leaving the labels unchanged; KPOINTS is not consulted in
that case), and some (some ls) a marker line parsed into the label list ls.
On IOError the first line of KPOINTS is used instead; if KPOINTS is also
absent the failure is only printed and the labels stay unset. No case
aborts. -/
def resolveLabels_xml (explicit : Option (List String))
    (outcarLabels : Option (Option (List String)))
    (kpointsFirstLine : Option (List String)) : Option (List String) :=
  if truthyList explicit then explicit
  else
    match outcarLabels with
    | some (some ls) => some ls
    | some none => explicit
    | none =>
      match kpointsFirstLine with
      | some ls => some ls
      | none => explicit

/-- Python-level errors of the EIGENVAL-branch OUTCAR pass. -/
inductive TabErr
  | ioError
  | stopIteration
deriving DecidableEq, Repr

/-- The EIGENVAL-branch OUTCAR pass, bs.py lines 233-245: OUTCAR is opened
without a try (IOError propagates if the file is absent) and scanned for the
marker line; at the marker, the labels are the explicit argument if truthy
and otherwise are parsed from the marker line itself, and the following
N_kps lines are then read as k-point coordinates with f.next()
(StopIteration propagates when the file is exhausted, in particular whenever
no marker line exists and N_kps is at least 1). outcar = none models a
missing file; some none a file without a marker line; some (some
(markerLabels, rest)) a file whose marker line parses to markerLabels and is
followed by the coordinate lines rest. -/
def eigenvalLabelsAndKps (explicit : Option (List String))
    (outcar : Option (Option (List String × List Point3))) (N_kps : ℕ) :
    Except TabErr (Option (List String) × List Point3) :=
  match outcar with
  | none => .error .ioError
  | some none =>
    if N_kps = 0 then .ok (explicit, []) else .error .stopIteration
  | some (some (markerLabels, rest)) =>
    if N_kps ≤ rest.length then
      .ok ((if truthyList explicit then explicit else some markerLabels),
        rest.take N_kps)
    else .error .stopIteration

/-- C1 counterexample: the claim says every explicit override wins for every
field and every format. It fails at these concrete calls: get_tdos with an
explicit Ef = 1 returns the file value 2 in both formats (dos.py lines 45 and
75 assign Ef from the file unconditionally), and the xml branch of plot_bs
with an explicit N_kps_per_section = 5 returns the file value 7 (bs.py line
155 assigns it from the file unconditionally). -/
theorem C1_counterexample :
    resolveEf_tdos (some 1) 2 = 2 ∧ resolveEf_tdos (some 1) 2 ≠ 1 ∧
    resolveNkps_bsXml (some 5) 7 = 7 ∧ resolveNkps_bsXml (some 5) 7 ≠ 5 := by
  refine ⟨rfl, ?_, rfl, ?_⟩ <;> decide

/-- C1 (amended): a nonzero explicit ISPIN or Ef in plot_bs (both formats), a
nonzero explicit N_kps_per_section in the EIGENVAL format of plot_bs, and a
nonzero explicit ISPIN in get_tdos are returned exactly as supplied,
regardless of what the primary file or the sidecar files contain. (Explicit
N_kps_per_section in the xml format of plot_bs and explicit Ef in get_tdos
are ignored, band_count has no explicit parameter, and zero overrides fall
back to the files.) -/
theorem C1_override_precedence (i : ℤ) (hi : i ≠ 0) (q : ℚ) (hq : q ≠ 0)
    (n : ℕ) (hn : n ≠ 0) (fileISPIN : ℤ) (fileEf : ℚ)
    (outcarMatches : Option (List ℚ)) (doscarEf : Option ℚ)
    (kpointsVal : Option ℕ) (tdosISPIN : ℤ) :
    resolveISPIN (some i) fileISPIN = i ∧
    resolveEf_bsXml (some q) fileEf = q ∧
    resolveEf_eigenval (some q) outcarMatches doscarEf = .ok (some q) ∧
    resolveNkps_eigenval (some n) kpointsVal = .ok n ∧
    resolveISPIN_tdos (some i) tdosISPIN = i := by
  refine ⟨?_, ?_, ?_, ?_, ?_⟩ <;>
    simp [resolveISPIN, resolveEf_bsXml, resolveEf_eigenval, resolveNkps_eigenval,
      resolveISPIN_tdos, truthyInt, truthyRat, truthyNat, hi, hq, hn]

/-- Witness for C1_override_precedence at ISPIN = 2, Ef = 9,
N_kps_per_section = 3, with arbitrary concrete file contents. -/
theorem C1_witness :
    (2 : ℤ) ≠ 0 ∧ (9 : ℚ) ≠ 0 ∧ (3 : ℕ) ≠ 0 ∧
    (resolveISPIN (some 2) 1 = 2 ∧
     resolveEf_bsXml (some 9) 7 = 9 ∧
     resolveEf_eigenval (some 9) (some [4]) (some 6) = .ok (some 9) ∧
     resolveNkps_eigenval (some 3) (some 11) = .ok 3 ∧
     resolveISPIN_tdos (some 2) 1 = 2) :=
  ⟨by decide, by decide, by decide,
    C1_override_precedence 2 (by decide) 9 (by decide) 3 (by decide)
      1 7 (some [4]) (some 6) (some 11) 1⟩

/-- C10: an explicitly supplied ISPIN = 0 or Ef = 0.0 is falsy under the
truthiness test, so resolution falls back to the file-derived sources exactly
as if no explicit value had been given, and the supplied zero is not
returned. This holds for ISPIN and Ef in both branches of plot_bs and for
ISPIN in get_tdos. -/
theorem C10_zero_override_falls_back (fileISPIN : ℤ) (fileEf : ℚ)
    (ms : List ℚ) (doscarEf : Option ℚ) (tdosISPIN : ℤ) :
    resolveISPIN (some 0) fileISPIN = resolveISPIN none fileISPIN ∧
    resolveISPIN (some 0) fileISPIN = fileISPIN ∧
    resolveEf_bsXml (some 0) fileEf = resolveEf_bsXml none fileEf ∧
    resolveEf_bsXml (some 0) fileEf = fileEf ∧
    resolveEf_eigenval (some 0) (some (ms ++ [fileEf])) doscarEf
      = .ok (some fileEf) ∧
    resolveISPIN_tdos (some 0) tdosISPIN = tdosISPIN := by
  refine ⟨?_, ?_, ?_, ?_, ?_, ?_⟩ <;>
    simp [resolveISPIN, resolveEf_bsXml, resolveEf_eigenval, resolveISPIN_tdos,
      truthyInt, truthyRat]

/-- Intended index set of the valence scan: the filter the masks of
find_band_edges describe, i.e. component 0 of the np.where tuple. -/
theorem trueIndices_mem (mask : List Bool) (i : ℕ) :
    i ∈ trueIndices mask ↔ i < mask.length ∧ mask.getD i false = true := by
  simp [trueIndices, List.mem_filter, List.mem_range]

/-- C5: find_band_edges raises IndexError on every input. np.where over the
1-D mask of a single row returns a tuple of length one, and the code indexes
that tuple at [1] (bs.py lines 26 and 29), so the first printed expression
already raises before any index set is reported; nothing is ever returned.
The intended filter sits at tuple component 0. -/
theorem C5_find_band_edges_always_raises (kp_edge : ℕ) (prec_range : ℚ)
    (E : List (List ℚ)) :
    find_band_edges kp_edge prec_range E = .error .indexError := rfl

/-- C9: every entry of the produced energy table equals the raw value read
from the source lines minus Ef, with the subtraction applied exactly once at
construction, and the source lines are left untouched (the raw read of the
same entry still yields the unshifted value); for the DOS table the energy
column equals the raw energy minus Ef and every density column is returned
unshifted. -/
theorem C9_fermi_shift (lines : List (List ℚ)) (N_kps N_bands kp band col : ℕ)
    (Ef : ℚ) (hkp : kp < N_kps) (hband : band < N_bands)
    (NEDOS i j : ℕ) (hi : i < (tdosData lines NEDOS).length)
    (hrow : ((tdosData lines NEDOS).getD i []) ≠ []) (hj : 0 < j) :
    ((bsEnergyTable lines N_kps N_bands col Ef).getD kp []).getD band 0
      = eigenvalEntry lines N_bands kp band col - Ef ∧
    eigenvalEntry lines N_bands kp band col
      = (lines.getD (8 + band + (N_bands + 2) * kp) []).getD col 0 ∧
    ((tdosTable lines NEDOS Ef).getD i []).getD 0 0
      = ((tdosData lines NEDOS).getD i []).getD 0 0 - Ef ∧
    ((tdosTable lines NEDOS Ef).getD i []).getD j 0
      = ((tdosData lines NEDOS).getD i []).getD j 0 := by
  have getD_map : ∀ {α β : Type} (f : α → β) (l : List α) (i : ℕ) (d : β)
      (h : i < l.length), (l.map f).getD i d = f l[i] := by
    intro α β f l i d h
    rw [List.getD_eq_getElem?_getD, List.getElem?_map, List.getElem?_eq_getElem h]
    simp
  have hrowElem : (tdosData lines NEDOS)[i] = (tdosData lines NEDOS).getD i [] :=
    (List.getD_eq_getElem _ _ hi).symm
  refine ⟨?_, rfl, ?_, ?_⟩
  · have h1 : kp < (extractE_eigenval lines N_kps N_bands col).length := by
      simpa [extractE_eigenval] using hkp
    rw [bsEnergyTable, shiftByEf, getD_map _ _ _ _ h1]
    have h2 : band < ((extractE_eigenval lines N_kps N_bands col)[kp]).length := by
      simpa [extractE_eigenval, hkp] using hband
    rw [getD_map _ _ _ _ h2]
    simp [extractE_eigenval, hkp, hband]
  · rw [tdosTable, shiftCol0, getD_map _ _ _ _ hi, hrowElem]
    cases h : (tdosData lines NEDOS).getD i [] with
    | nil => exact absurd h hrow
    | cons x rest => simp
  · rw [tdosTable, shiftCol0, getD_map _ _ _ _ hi, hrowElem]
    cases h : (tdosData lines NEDOS).getD i [] with
    | nil => simp
    | cons x rest =>
      obtain ⟨j, rfl⟩ := Nat.exists_eq_add_of_lt hj
      simp [List.getD_cons_succ]

/-- Witness for C9_fermi_shift on a 9-line EIGENVAL model with one k-point
and one band (raw value 7 at line 8 token 1), Ef = 2, and a 3-row DOS slice
whose row 2 is nonempty. -/
theorem C9_witness :
    ((bsEnergyTable [[], [], [], [], [], [], [], [], [0, 7]] 1 1 1 2).getD 0
        []).getD 0 0
      = eigenvalEntry [[], [], [], [], [], [], [], [], [0, 7]] 1 0 0 1 - 2 ∧
    eigenvalEntry [[], [], [], [], [], [], [], [], [0, 7]] 1 0 0 1
      = (([[], [], [], [], [], [], [], [], [0, 7]] :
          List (List ℚ)).getD (8 + 0 + (1 + 2) * 0) []).getD 1 0 ∧
    ((tdosTable [[], [], [], [], [], [], [], [], [0, 7]] 3 2).getD 2 []).getD 0 0
      = ((tdosData [[], [], [], [], [], [], [], [], [0, 7]] 3).getD 2 []).getD 0 0
        - 2 ∧
    ((tdosTable [[], [], [], [], [], [], [], [], [0, 7]] 3 2).getD 2 []).getD 1 0
      = ((tdosData [[], [], [], [], [], [], [], [], [0, 7]] 3).getD 2 []).getD 1 0 :=
  C9_fermi_shift [[], [], [], [], [], [], [], [], [0, 7]] 1 1 0 0 1 2
    (by decide) (by decide) 3 2 1 (by decide) (by decide) (by decide)

/-! Helper lemmas about linspace, boundary positions and flattening. -/

theorem linspace_length (a b : ℝ) (num : ℕ) : (linspace a b num).length = num := by
  unfold linspace
  split
  · simp [*]
  · simp

theorem linspace_ne_nil (a b : ℝ) (num : ℕ) (h : 1 ≤ num) :
    linspace a b num ≠ [] := by
  intro hcon
  have := linspace_length a b num
  rw [hcon] at this
  simp at this
  omega

theorem linspace_getD (a b : ℝ) (num j : ℕ) (hj : j < num) (h2 : 2 ≤ num) :
    (linspace a b num).getD j 0 = a + j * (b - a) / ((num : ℝ) - 1) := by
  unfold linspace
  rw [if_neg (by omega)]
  have hj2 : j < ((List.range num).map fun i : ℕ =>
      a + (i : ℝ) * (b - a) / ((num : ℝ) - 1)).length := by simpa using hj
  rw [List.getD_eq_getElem _ _ hj2]
  simp [hj]

theorem linspace_getD_zero (a b : ℝ) (num : ℕ) (h : 1 ≤ num) :
    (linspace a b num).getD 0 0 = a := by
  by_cases h1 : num = 1
  · simp [linspace, h1]
  · rw [linspace_getD a b num 0 (by omega) (by omega)]
    simp

theorem linspace_head? (a b : ℝ) (num : ℕ) (h : 1 ≤ num) :
    (linspace a b num).head? = some a := by
  have hlt : 0 < (linspace a b num).length := by rw [linspace_length]; omega
  rw [List.head?_eq_getElem?, List.getElem?_eq_getElem hlt]
  have := linspace_getD_zero a b num h
  rw [List.getD_eq_getElem _ _ hlt] at this
  rw [this]

theorem linspace_getLast?_of_two_le (a b : ℝ) (num : ℕ) (h2 : 2 ≤ num) :
    (linspace a b num).getLast? = some b := by
  have hne := linspace_ne_nil a b num (by omega)
  rw [List.getLast?_eq_getElem?]
  rw [linspace_length]
  have hlt : num - 1 < num := by omega
  rw [List.getElem?_eq_getElem (by rw [linspace_length]; exact hlt)]
  have := linspace_getD a b num (num - 1) hlt h2
  rw [List.getD_eq_getElem _ _ (by rw [linspace_length]; exact hlt)] at this
  rw [this]
  have hnum : ((num : ℝ) - 1) ≠ 0 := by
    have : (2 : ℝ) ≤ (num : ℝ) := by exact_mod_cast h2
    intro hcon
    nlinarith
  have hcast : ((num - 1 : ℕ) : ℝ) = (num : ℝ) - 1 := by
    have : 1 ≤ num := by omega
    push_cast [this]
    ring
  rw [hcast]
  field_simp

theorem linspace_getLast?_of_one (a b : ℝ) :
    (linspace a b 1).getLast? = some a := by
  simp [linspace]

theorem linspace_chain' (a b : ℝ) (num : ℕ) (hab : a ≤ b) :
    List.Chain' (· ≤ ·) (linspace a b num) := by
  by_cases h1 : num = 1
  · simp [linspace, h1]
  · rw [linspace, if_neg h1]
    rcases Nat.lt_or_ge num 2 with hsmall | h2
    · interval_cases num
      · simp
      · omega
    · rw [List.chain'_map, List.chain'_iff_get]
      intro i hi
      simp only [List.get_eq_getElem, List.getElem_range]
      have hstep : 0 ≤ (b - a) / ((num : ℝ) - 1) := by
        apply div_nonneg (by linarith)
        have : (2 : ℝ) ≤ (num : ℝ) := by exact_mod_cast h2
        linarith
      have : (i : ℝ) ≤ (i : ℝ) + 1 := by linarith
      push_cast
      have expand : ∀ c : ℝ, a + c * (b - a) / ((num : ℝ) - 1)
          = a + c * ((b - a) / ((num : ℝ) - 1)) := by
        intro c; ring
      rw [expand, expand]
      have : (i : ℝ) * ((b - a) / ((num : ℝ) - 1))
          ≤ ((i : ℝ) + 1) * ((b - a) / ((num : ℝ) - 1)) := by
        apply mul_le_mul_of_nonneg_right _ hstep
        linarith
      linarith

theorem sectionLen_nonneg (kps : List Point3) (N s : ℕ) :
    0 ≤ sectionLen kps N s :=
  Real.sqrt_nonneg _

theorem sectionLen_of_one (kps : List Point3) (s : ℕ) :
    sectionLen kps 1 s = 0 := by
  have hidx : 1 * (s + 1) - 1 = 1 * s := by omega
  simp [sectionLen, sectionPair, norm3, hidx]

theorem boundaryPos_zero (kps : List Point3) (N : ℕ) :
    boundaryPos kps N 0 = 0 := rfl

theorem boundaryPos_le_succ (kps : List Point3) (N s : ℕ) :
    boundaryPos kps N s ≤ boundaryPos kps N (s + 1) := by
  have := sectionLen_nonneg kps N s
  simp only [boundaryPos]
  linarith

theorem boundaryPos_sum (kps : List Point3) (N s : ℕ) :
    boundaryPos kps N s = ∑ t ∈ Finset.range s, sectionLen kps N t := by
  induction s with
  | zero => simp [boundaryPos]
  | succ m ih => rw [boundaryPos, ih, Finset.sum_range_succ]

theorem flatten_getD_uniform {α : Type} (L : List (List α)) (N : ℕ)
    (hN : ∀ l ∈ L, l.length = N) (s j : ℕ) (hs : s < L.length) (hj : j < N)
    (d : α) :
    L.flatten.getD (s * N + j) d = (L.getD s []).getD j d := by
  induction L generalizing s with
  | nil => simp at hs
  | cons l L ih =>
    cases s with
    | zero =>
      have hl : l.length = N := hN l (List.mem_cons_self l L)
      rw [List.flatten_cons]
      simp only [Nat.zero_mul, Nat.zero_add]
      rw [List.getD_append _ _ _ _ (by rw [hl]; exact hj)]
      simp
    | succ m =>
      have hl : l.length = N := hN l (List.mem_cons_self l L)
      rw [List.flatten_cons]
      have hidx : (m + 1) * N + j = l.length + (m * N + j) := by
        rw [hl]; ring
      rw [hidx, List.getD_append_right _ _ _ _ (by omega)]
      have : l.length + (m * N + j) - l.length = m * N + j := by omega
      rw [this]
      rw [ih (fun x hx => hN x (List.mem_cons_of_mem l hx)) m
        (by simpa using Nat.lt_of_succ_lt_succ (by simpa using hs))]
      simp

theorem kps_linearized_succ (kps : List Point3) (N nsec : ℕ) :
    kps_linearized kps N (nsec + 1) = kps_linearized kps N nsec
      ++ linspace (boundaryPos kps N nsec) (boundaryPos kps N (nsec + 1)) N := by
  rw [kps_linearized, kps_linearized, List.range_succ, List.map_append]
  simp

theorem boundaryPos_of_one (kps : List Point3) (s : ℕ) :
    boundaryPos kps 1 s = 0 := by
  induction s with
  | zero => rfl
  | succ m ih => rw [boundaryPos, ih, sectionLen_of_one]; ring

theorem kps_linearized_getLast? (kps : List Point3) (N nsec : ℕ)
    (hN : 1 ≤ N) (hsec : 1 ≤ nsec) :
    (kps_linearized kps N nsec).getLast? = some (boundaryPos kps N nsec) := by
  obtain ⟨m, rfl⟩ : ∃ m, nsec = m + 1 := ⟨nsec - 1, by omega⟩
  rw [kps_linearized_succ]
  rw [List.getLast?_append_of_ne_nil _ (linspace_ne_nil _ _ _ hN)]
  by_cases h1 : N = 1
  · subst h1
    rw [linspace_getLast?_of_one, boundaryPos_of_one, boundaryPos_of_one]
  · rw [linspace_getLast?_of_two_le _ _ _ (by omega)]

theorem kps_linearized_head? (kps : List Point3) (N nsec : ℕ)
    (hN : 1 ≤ N) (hsec : 1 ≤ nsec) :
    (kps_linearized kps N nsec).head? = some 0 := by
  obtain ⟨m, rfl⟩ : ∃ m, nsec = m + 1 := ⟨nsec - 1, by omega⟩
  rw [kps_linearized, List.range_succ_eq_map, List.map_cons, List.flatten_cons]
  rw [List.head?_append_of_ne_nil _ (linspace_ne_nil _ _ _ hN)]
  exact linspace_head? _ _ _ hN

theorem nil_not_mem_sections (kps : List Point3) (N nsec : ℕ) (hN : 1 ≤ N) :
    [] ∉ (List.range nsec).map fun s =>
      linspace (boundaryPos kps N s) (boundaryPos kps N (s + 1)) N := by
  intro hmem
  simp only [List.mem_map, List.mem_range] at hmem
  obtain ⟨t, _, ht⟩ := hmem
  exact linspace_ne_nil _ _ _ hN ht

theorem kps_linearized_chain' (kps : List Point3) (N nsec : ℕ) (hN : 1 ≤ N) :
    List.Chain' (· ≤ ·) (kps_linearized kps N nsec) := by
  rw [kps_linearized, List.chain'_flatten (nil_not_mem_sections kps N nsec hN)]
  constructor
  · intro l hl
    simp only [List.mem_map, List.mem_range] at hl
    obtain ⟨t, _, rfl⟩ := hl
    exact linspace_chain' _ _ _ (boundaryPos_le_succ kps N t)
  · rw [List.chain'_map]
    cases nsec with
    | zero => simp
    | succ m =>
      rw [List.chain'_range_succ]
      intro t _ x hx y hy
      rw [linspace_head? _ _ _ hN, Option.mem_some_iff] at hy
      subst hy
      by_cases h1 : N = 1
      · subst h1
        rw [linspace_getLast?_of_one, Option.mem_some_iff] at hx
        subst hx
        exact boundaryPos_le_succ kps 1 t
      · rw [linspace_getLast?_of_two_le _ _ _ (by omega), Option.mem_some_iff] at hx
        subst hx
        exact le_refl _

theorem locations_chain'_le (kps : List Point3) (N nsec : ℕ) :
    List.Chain' (· ≤ ·) (reciprocal_point_locations kps N nsec) := by
  rw [reciprocal_point_locations, List.chain'_map, List.chain'_range_succ]
  intro m _
  exact boundaryPos_le_succ kps N m

theorem locations_chain'_lt (kps : List Point3) (N nsec : ℕ)
    (hpos : ∀ t, t < nsec → 0 < sectionLen kps N t) :
    List.Chain' (· < ·) (reciprocal_point_locations kps N nsec) := by
  rw [reciprocal_point_locations, List.chain'_map, List.chain'_range_succ]
  intro m hm
  have := hpos m hm
  simp only [boundaryPos]
  linarith

/-- C2: correctness of the k-axis linearizer. Boundary 0 is 0; boundary
(t + 1) adds the straight-line Euclidean distance between the last and first
point of section t (indices N * (t + 1) - 1 and N * t of the input sequence),
not a per-step arc length; and the axis value at k-point index s * N + j is
the j-th of N evenly spaced (linearly interpolated) values between the two
boundary positions of section s, independent of the intermediate-point
spacing. -/
theorem C2_linearizer (kps : List Point3) (N nsec s j : ℕ)
    (hlen : kps.length = N * nsec) (hs : s < nsec) (hj : j < N) (hN : 2 ≤ N) :
    boundaryPos kps N 0 = 0 ∧
    (∀ t, boundaryPos kps N (t + 1) = boundaryPos kps N t
      + norm3 (kps.getD (N * (t + 1) - 1) default) (kps.getD (N * t) default)) ∧
    (kps_linearized kps N nsec).getD (s * N + j) 0
      = boundaryPos kps N s
        + (j : ℝ) * (boundaryPos kps N (s + 1) - boundaryPos kps N s)
          / ((N : ℝ) - 1) := by
  refine ⟨rfl, fun t => rfl, ?_⟩
  rw [kps_linearized]
  rw [flatten_getD_uniform _ N ?unif s j ?slen hj 0]
  case unif =>
    intro l hl
    simp only [List.mem_map, List.mem_range] at hl
    obtain ⟨t, _, rfl⟩ := hl
    exact linspace_length _ _ _
  case slen => simpa using hs
  have hgetD : ((List.range nsec).map fun t =>
      linspace (boundaryPos kps N t) (boundaryPos kps N (t + 1)) N).getD s []
      = linspace (boundaryPos kps N s) (boundaryPos kps N (s + 1)) N := by
    rw [List.getD_eq_getElem _ _ (by simpa using hs)]
    simp [hs]
  rw [hgetD, linspace_getD _ _ _ _ hj hN]

/-- Witness for C2_linearizer on the single-section input
[(0,0,0), (2,0,0)] with N = 2, at section 0, offset 1. -/
theorem C2_witness :
    ([⟨0, 0, 0⟩, ⟨2, 0, 0⟩] : List Point3).length = 2 * 1 ∧
    (boundaryPos [⟨0, 0, 0⟩, ⟨2, 0, 0⟩] 2 0 = 0 ∧
     (∀ t, boundaryPos [⟨0, 0, 0⟩, ⟨2, 0, 0⟩] 2 (t + 1)
        = boundaryPos [⟨0, 0, 0⟩, ⟨2, 0, 0⟩] 2 t
          + norm3 (([⟨0, 0, 0⟩, ⟨2, 0, 0⟩] :
              List Point3).getD (2 * (t + 1) - 1) default)
            (([⟨0, 0, 0⟩, ⟨2, 0, 0⟩] : List Point3).getD (2 * t) default)) ∧
     (kps_linearized [⟨0, 0, 0⟩, ⟨2, 0, 0⟩] 2 1).getD (0 * 2 + 1) 0
       = boundaryPos [⟨0, 0, 0⟩, ⟨2, 0, 0⟩] 2 0
         + ((1 : ℕ) : ℝ) * (boundaryPos [⟨0, 0, 0⟩, ⟨2, 0, 0⟩] 2 (0 + 1)
            - boundaryPos [⟨0, 0, 0⟩, ⟨2, 0, 0⟩] 2 0) / (((2 : ℕ) : ℝ) - 1)) :=
  ⟨rfl, C2_linearizer [⟨0, 0, 0⟩, ⟨2, 0, 0⟩] 2 1 0 1 rfl (by decide) (by decide)
    (by decide)⟩

/-- C3 counterexample: the claim asserts the boundary-position sequence is
strictly increasing for every input with consistent shape metadata. For the
consistent input of one section of two coincident points the section length
is 0 and the boundary sequence is [0, 0], which is not strictly
increasing. -/
theorem C3_counterexample :
    reciprocal_point_locations [⟨0, 0, 0⟩, ⟨0, 0, 0⟩] 2 1 = [0, 0] ∧
    ¬ List.Chain' (fun x y : ℝ => x < y)
      (reciprocal_point_locations [⟨0, 0, 0⟩, ⟨0, 0, 0⟩] 2 1) := by
  have hrange : List.range 2 = [0, 1] := rfl
  have hlist : reciprocal_point_locations [⟨0, 0, 0⟩, ⟨0, 0, 0⟩] 2 1 = [0, 0] := by
    rw [reciprocal_point_locations, hrange]
    simp [boundaryPos, sectionLen, sectionPair, norm3]
  refine ⟨hlist, ?_⟩
  rw [hlist]
  simp

/-- C3 (amended): for every input with consistent shape metadata the
linearized axis is monotonically non-decreasing, its first value is 0, its
final value is the sum of all section lengths, and the boundary-position
sequence has length segment_count + 1, is monotonically non-decreasing
(strictly increasing whenever every section has nonzero straight-line
length), and its entry s equals the axis value at the start of section s. -/
theorem C3_axis_invariants (kps : List Point3) (N nsec : ℕ)
    (hN : 1 ≤ N) (hsec : 1 ≤ nsec) (hlen : kps.length = N * nsec) :
    List.Chain' (· ≤ ·) (kps_linearized kps N nsec) ∧
    (kps_linearized kps N nsec).head? = some 0 ∧
    (kps_linearized kps N nsec).getLast?
      = some (∑ t ∈ Finset.range nsec, sectionLen kps N t) ∧
    (reciprocal_point_locations kps N nsec).length = nsec + 1 ∧
    List.Chain' (· ≤ ·) (reciprocal_point_locations kps N nsec) ∧
    ((∀ t, t < nsec → 0 < sectionLen kps N t) →
      List.Chain' (· < ·) (reciprocal_point_locations kps N nsec)) ∧
    (∀ s, s < nsec →
      (kps_linearized kps N nsec).getD (s * N) 0 = boundaryPos kps N s ∧
      (reciprocal_point_locations kps N nsec).getD s 0 = boundaryPos kps N s) := by
  refine ⟨kps_linearized_chain' kps N nsec hN, kps_linearized_head? kps N nsec hN hsec,
    ?_, ?_, locations_chain'_le kps N nsec, locations_chain'_lt kps N nsec, ?_⟩
  · rw [kps_linearized_getLast? kps N nsec hN hsec, boundaryPos_sum]
  · simp [reciprocal_point_locations]
  · intro s hs
    constructor
    · have h0 : s * N = s * N + 0 := rfl
      rw [kps_linearized, h0]
      rw [flatten_getD_uniform _ N ?unif2 s 0 ?slen2 (by omega) 0]
      case unif2 =>
        intro l hl
        simp only [List.mem_map, List.mem_range] at hl
        obtain ⟨t, _, rfl⟩ := hl
        exact linspace_length _ _ _
      case slen2 => simpa using hs
      have hgetD : ((List.range nsec).map fun t =>
          linspace (boundaryPos kps N t) (boundaryPos kps N (t + 1)) N).getD s []
          = linspace (boundaryPos kps N s) (boundaryPos kps N (s + 1)) N := by
        rw [List.getD_eq_getElem _ _ (by simpa using hs)]
        simp [hs]
      rw [hgetD, linspace_getD_zero _ _ _ hN]
    · rw [reciprocal_point_locations]
      rw [List.getD_eq_getElem _ _ (by simp; omega)]
      simp [hs, Nat.lt_succ_of_lt hs]

/-- Witness for C3_axis_invariants on the single-section input
[(0,0,0), (1,0,0)] with N = 2. -/
theorem C3_witness :
    List.Chain' (· ≤ ·) (kps_linearized [⟨0, 0, 0⟩, ⟨1, 0, 0⟩] 2 1) ∧
    (kps_linearized [⟨0, 0, 0⟩, ⟨1, 0, 0⟩] 2 1).head? = some 0 ∧
    (kps_linearized [⟨0, 0, 0⟩, ⟨1, 0, 0⟩] 2 1).getLast?
      = some (∑ t ∈ Finset.range 1, sectionLen [⟨0, 0, 0⟩, ⟨1, 0, 0⟩] 2 t) ∧
    (reciprocal_point_locations [⟨0, 0, 0⟩, ⟨1, 0, 0⟩] 2 1).length = 1 + 1 ∧
    List.Chain' (· ≤ ·) (reciprocal_point_locations [⟨0, 0, 0⟩, ⟨1, 0, 0⟩] 2 1) ∧
    ((∀ t, t < 1 → 0 < sectionLen [⟨0, 0, 0⟩, ⟨1, 0, 0⟩] 2 t) →
      List.Chain' (· < ·) (reciprocal_point_locations [⟨0, 0, 0⟩, ⟨1, 0, 0⟩] 2 1)) ∧
    (∀ s, s < 1 →
      (kps_linearized [⟨0, 0, 0⟩, ⟨1, 0, 0⟩] 2 1).getD (s * 2) 0
        = boundaryPos [⟨0, 0, 0⟩, ⟨1, 0, 0⟩] 2 s ∧
      (reciprocal_point_locations [⟨0, 0, 0⟩, ⟨1, 0, 0⟩] 2 1).getD s 0
        = boundaryPos [⟨0, 0, 0⟩, ⟨1, 0, 0⟩] 2 s) :=
  C3_axis_invariants [⟨0, 0, 0⟩, ⟨1, 0, 0⟩] 2 1 (by decide) (by decide) rfl

/-- C6 counterexample: the claim asserts every mismatched input fails with
the count error in both formats. In the EIGENVAL (tabular) format, the input
of 3 k-points with N_kps_per_section = 2 has 2 * segment_count equal to 2,
not 3, yet no error is raised: the section count is floor-divided to 1 and a
linearized axis [0, 1] is still produced (the trailing k-point is silently
dropped from the segmentation). -/
theorem C6_counterexample :
    sectionCountEigenval 3 2 = 1 ∧
    2 * sectionCountEigenval 3 2 ≠ 3 ∧
    bsAxisEigenval [⟨0, 0, 0⟩, ⟨1, 0, 0⟩, ⟨2, 0, 0⟩] 3 2 = [0, 1] := by
  refine ⟨rfl, by decide, ?_⟩
  rw [bsAxisEigenval]
  show kps_linearized [⟨0, 0, 0⟩, ⟨1, 0, 0⟩, ⟨2, 0, 0⟩] 2 1 = [0, 1]
  rw [kps_linearized]
  have hrange : List.range 1 = [0] := rfl
  rw [hrange]
  simp only [List.map_cons, List.map_nil, List.flatten_cons, List.flatten_nil,
    List.append_nil]
  have hb0 : boundaryPos [⟨0, 0, 0⟩, ⟨1, 0, 0⟩, ⟨2, 0, 0⟩] 2 0 = 0 := rfl
  have hb1 : boundaryPos [⟨0, 0, 0⟩, ⟨1, 0, 0⟩, ⟨2, 0, 0⟩] 2 1 = 1 := by
    show boundaryPos _ 2 0 + sectionLen _ 2 0 = 1
    rw [hb0, sectionLen, sectionPair, norm3]
    norm_num
  rw [hb0, hb1, linspace]
  norm_num
  have hrange2 : List.range 2 = [0, 1] := rfl
  rw [hrange2]
  simp

/-- C6 (amended): in the xml (tree) format the shape assert succeeds exactly
when N_kps_per_section * N_kp_sections equals N_kps and otherwise raises the
count mismatch error; in the EIGENVAL (tabular) format no such check exists:
the section count is the floor division N_kps / N_kps_per_section and an axis
of length N_kps_per_section * (N_kps / N_kps_per_section) is produced without
any error. -/
theorem C6_kpoint_count_check (N nsec nkps : ℕ) (kps : List Point3) :
    (checkKpCountXml N nsec nkps = .ok () ↔ N * nsec = nkps) ∧
    (checkKpCountXml N nsec nkps = .error .assertKpMismatch ↔ N * nsec ≠ nkps) ∧
    (bsAxisEigenval kps nkps N).length = N * (nkps / N) := by
  refine ⟨?_, ?_, ?_⟩
  · rw [checkKpCountXml]
    split <;> simp [*]
  · rw [checkKpCountXml]
    split <;> simp [*]
  · rw [bsAxisEigenval, kps_linearized, List.length_flatten, List.map_map]
    have : (List.map (List.length ∘ fun s =>
        linspace (boundaryPos kps N s) (boundaryPos kps N (s + 1)) N)
        (List.range (sectionCountEigenval nkps N)))
        = List.map (fun _ => N) (List.range (sectionCountEigenval nkps N)) := by
      apply List.map_congr_left
      intro t _
      exact linspace_length _ _ _
    rw [this, List.map_const', List.sum_replicate, List.length_range, smul_eq_mul,
      sectionCountEigenval, Nat.mul_comm]

/-! Least-squares machinery: the minimizer satisfies the normal equations,
and a nonsingular normal system pins the quadratic coefficient to its Cramer
form. -/

theorem residualSum_nonneg (xs ys : List ℝ) (a b c : ℝ) :
    0 ≤ residualSum xs ys a b c := by
  rw [residualSum]
  induction xs generalizing ys with
  | nil => simp
  | cons x xs ih =>
    cases ys with
    | nil => simp
    | cons y ys =>
      rw [List.zipWith_cons_cons, List.sum_cons]
      have := ih ys
      positivity

theorem zipPowSum_double_nonneg (xs ys : List ℝ) (m : ℕ) :
    0 ≤ zipPowSum xs ys (2 * m) := by
  rw [zipPowSum]
  induction xs generalizing ys with
  | nil => simp
  | cons x xs ih =>
    cases ys with
    | nil => simp
    | cons y ys =>
      rw [List.zipWith_cons_cons, List.sum_cons]
      have h1 : (0 : ℝ) ≤ x ^ (2 * m) := by
        rw [pow_mul]
        positivity
      have := ih ys
      linarith

theorem residualSum_shift_a (xs ys : List ℝ) (a b c t : ℝ) :
    residualSum xs ys (a + t) b c
      = residualSum xs ys a b c - 2 * t * gradSum xs ys a b c 2
        + t ^ 2 * zipPowSum xs ys 4 := by
  rw [residualSum, residualSum, gradSum, zipPowSum]
  induction xs generalizing ys with
  | nil => simp
  | cons x xs ih =>
    cases ys with
    | nil => simp
    | cons y ys =>
      simp only [List.zipWith_cons_cons, List.sum_cons]
      rw [ih ys]
      ring

theorem residualSum_shift_b (xs ys : List ℝ) (a b c t : ℝ) :
    residualSum xs ys a (b + t) c
      = residualSum xs ys a b c - 2 * t * gradSum xs ys a b c 1
        + t ^ 2 * zipPowSum xs ys 2 := by
  rw [residualSum, residualSum, gradSum, zipPowSum]
  induction xs generalizing ys with
  | nil => simp
  | cons x xs ih =>
    cases ys with
    | nil => simp
    | cons y ys =>
      simp only [List.zipWith_cons_cons, List.sum_cons]
      rw [ih ys]
      ring

theorem residualSum_shift_c (xs ys : List ℝ) (a b c t : ℝ) :
    residualSum xs ys a b (c + t)
      = residualSum xs ys a b c - 2 * t * gradSum xs ys a b c 0
        + t ^ 2 * zipPowSum xs ys 0 := by
  rw [residualSum, residualSum, gradSum, zipPowSum]
  induction xs generalizing ys with
  | nil => simp
  | cons x xs ih =>
    cases ys with
    | nil => simp
    | cons y ys =>
      simp only [List.zipWith_cons_cons, List.sum_cons]
      rw [ih ys]
      ring

theorem quad_nonneg_forces_zero (al G : ℝ) (hal : 0 ≤ al)
    (h : ∀ t : ℝ, 0 ≤ al * t ^ 2 - 2 * G * t) : G = 0 := by
  rcases eq_or_lt_of_le hal with heq | hpos
  · have h1 := h 1
    have h2 := h (-1)
    rw [← heq] at h1 h2
    nlinarith
  · have ht := h (G / al)
    have : al * (G / al) ^ 2 = G ^ 2 / al := by
      field_simp
      ring
    rw [this] at ht
    have h2 : 2 * G * (G / al) = 2 * G ^ 2 / al := by
      field_simp
      ring
    rw [h2] at ht
    have hG2 : G ^ 2 ≤ 0 := by
      have := mul_le_mul_of_nonneg_right ht (le_of_lt hpos)
      rw [sub_mul, div_mul_cancel₀ _ (ne_of_gt hpos),
        div_mul_cancel₀ _ (ne_of_gt hpos)] at this
      nlinarith
    nlinarith [sq_nonneg G]

theorem fit_min_grad_zero (xs ys : List ℝ) (a b c : ℝ)
    (hfit : IsLeastSquaresFit xs ys a b c) :
    gradSum xs ys a b c 2 = 0 ∧ gradSum xs ys a b c 1 = 0 ∧
    gradSum xs ys a b c 0 = 0 := by
  refine ⟨?_, ?_, ?_⟩
  · apply quad_nonneg_forces_zero (zipPowSum xs ys 4) _
      (by simpa using zipPowSum_double_nonneg xs ys 2)
    intro t
    have h1 := hfit (a + t) b c
    rw [residualSum_shift_a] at h1
    linarith
  · apply quad_nonneg_forces_zero (zipPowSum xs ys 2) _
      (by simpa using zipPowSum_double_nonneg xs ys 1)
    intro t
    have h1 := hfit a (b + t) c
    rw [residualSum_shift_b] at h1
    linarith
  · apply quad_nonneg_forces_zero (zipPowSum xs ys 0) _
      (by simpa using zipPowSum_double_nonneg xs ys 0)
    intro t
    have h1 := hfit a b (c + t)
    rw [residualSum_shift_c] at h1
    linarith

theorem gradSum_eq_moments (xs ys : List ℝ) (a b c : ℝ) (k : ℕ)
    (hlen : xs.length = ys.length) :
    gradSum xs ys a b c k
      = mixSum xs ys k - (a * powSum xs (k + 2) + b * powSum xs (k + 1)
        + c * powSum xs k) := by
  rw [gradSum, mixSum, powSum, powSum, powSum]
  induction xs generalizing ys with
  | nil =>
    cases ys with
    | nil => simp
    | cons y ys => simp at hlen
  | cons x xs ih =>
    cases ys with
    | nil => simp at hlen
    | cons y ys =>
      simp only [List.zipWith_cons_cons, List.sum_cons, List.map_cons]
      rw [ih ys (by simpa using hlen)]
      ring

theorem cramer_a_of_normal_eqs (S0 S1 S2 S3 S4 T0 T1 T2 a b c : ℝ)
    (hdet : S4 * (S2 * S0 - S1 * S1) - S3 * (S3 * S0 - S1 * S2)
      + S2 * (S3 * S1 - S2 * S2) ≠ 0)
    (E2 : a * S4 + b * S3 + c * S2 = T2)
    (E1 : a * S3 + b * S2 + c * S1 = T1)
    (E0 : a * S2 + b * S1 + c * S0 = T0) :
    a = (T2 * (S2 * S0 - S1 * S1) - T1 * (S3 * S0 - S2 * S1)
      + T0 * (S3 * S1 - S2 * S2))
      / (S4 * (S2 * S0 - S1 * S1) - S3 * (S3 * S0 - S1 * S2)
        + S2 * (S3 * S1 - S2 * S2)) := by
  rw [eq_div_iff hdet]
  rw [← E2, ← E1, ← E0]
  ring

theorem fitA_of_least_squares (xs ys : List ℝ) (a b c : ℝ)
    (hlen : xs.length = ys.length) (hdet : normalDet xs ≠ 0)
    (hfit : IsLeastSquaresFit xs ys a b c) :
    fitA xs ys = a := by
  obtain ⟨g2, g1, g0⟩ := fit_min_grad_zero xs ys a b c hfit
  rw [gradSum_eq_moments xs ys a b c 2 hlen, sub_eq_zero] at g2
  rw [gradSum_eq_moments xs ys a b c 1 hlen, sub_eq_zero] at g1
  rw [gradSum_eq_moments xs ys a b c 0 hlen, sub_eq_zero] at g0
  rw [fitA]
  have hdet2 : powSum xs 4 * (powSum xs 2 * powSum xs 0 - powSum xs 1 * powSum xs 1)
      - powSum xs 3 * (powSum xs 3 * powSum xs 0 - powSum xs 1 * powSum xs 2)
      + powSum xs 2 * (powSum xs 3 * powSum xs 1 - powSum xs 2 * powSum xs 2)
      ≠ 0 := by
    rw [normalDet] at hdet
    exact hdet
  rw [normalDet]
  exact (cramer_a_of_normal_eqs (powSum xs 0) (powSum xs 1) (powSum xs 2)
    (powSum xs 3) (powSum xs 4) (mixSum xs ys 0) (mixSum xs ys 1)
    (mixSum xs ys 2) a b c hdet2 (by rw [← g2]) (by rw [← g1])
    (by rw [← g0])).symm

/-- C4 counterexample: at the 3-point range with axis [0, 1, 2] and energies
[4, 1, 4] the least-squares quadratic coefficient is a = 3, and the function
returns h_bar^2 / (a * e / (2 pi / L)^2) / m_e, which differs from the
claimed h_bar^2 / (2 a * e / (2 pi / L)^2) / m_e: the code computes
e * p[2] / (2 pi / L)^2 at bs.py line 69 without the factor 2 of the second
derivative. -/
theorem C4_counterexample :
    get_reduced_effective_mass 0 0 2 [0, 1, 2] [[4], [1], [4]]
      = .ok (h_bar ^ 2 / (e_charge * 3 / (2 * Real.pi / scaling_const) ^ 2)
        / m_e) ∧
    h_bar ^ 2 / (e_charge * 3 / (2 * Real.pi / scaling_const) ^ 2) / m_e
      ≠ h_bar ^ 2 / (2 * 3 * e_charge / (2 * Real.pi / scaling_const) ^ 2)
        / m_e := by
  constructor
  · have hfit3 : fitA [0, 1, 2] [4, 1, 4] = 3 := by
      norm_num [fitA, normalDet, powSum, mixSum]
    have hred : get_reduced_effective_mass 0 0 2 [0, 1, 2] [[4], [1], [4]]
        = .ok (h_bar ^ 2 / (e_charge * fitA [0, 1, 2] [4, 1, 4]
          / (2 * Real.pi / scaling_const) ^ 2) / m_e) := rfl
    rw [hred, hfit3]
  · intro h
    unfold h_bar e_charge m_e scaling_const at h
    have hpi := Real.pi_pos
    have hpine := Real.pi_ne_zero
    have h2 : (1.054571726e-34 : ℝ) ^ 2
        / ((1.6021176462e-19 : ℝ) * 3
          / (2 * Real.pi / (6.3743775177e-10 : ℝ)) ^ 2) / (9.10938291e-31 : ℝ)
        = 2 * ((1.054571726e-34 : ℝ) ^ 2
          / (2 * 3 * (1.6021176462e-19 : ℝ)
            / (2 * Real.pi / (6.3743775177e-10 : ℝ)) ^ 2)
          / (9.10938291e-31 : ℝ)) := by
      field_simp
      ring
    have hpos : 0 < (1.054571726e-34 : ℝ) ^ 2
        / ((1.6021176462e-19 : ℝ) * 3
          / (2 * Real.pi / (6.3743775177e-10 : ℝ)) ^ 2)
        / (9.10938291e-31 : ℝ) := by positivity
    rw [h2] at h
    nlinarith [h, hpos, h2]

/-- C4 (amended): whenever the selected inclusive range is nonempty, the two
sample slices have equal length, and the normal matrix of the selected
abscissas is nonsingular, get_reduced_effective_mass returns exactly
h_bar^2 / (a * e / (2 pi / L)^2) / m_e (no factor 2 on a), where a is the
quadratic coefficient of the degree-2 least-squares fit of energy versus
linearized k over the range, and L is the fixed constant 6.3743775177e-10. -/
theorem C4_effective_mass (band kp_start kp_end : ℕ) (kps_lin : List ℝ)
    (E : List (List ℝ)) (a b c : ℝ)
    (hne : (selectedKps kp_start kp_end kps_lin).isEmpty = false)
    (hlen : (selectedKps kp_start kp_end kps_lin).length
      = (selectedEnergies band kp_start kp_end E).length)
    (hdet : normalDet (selectedKps kp_start kp_end kps_lin) ≠ 0)
    (hfit : IsLeastSquaresFit (selectedKps kp_start kp_end kps_lin)
      (selectedEnergies band kp_start kp_end E) a b c) :
    get_reduced_effective_mass band kp_start kp_end kps_lin E
      = .ok (h_bar ^ 2 / (e_charge * a / (2 * Real.pi / scaling_const) ^ 2)
        / m_e) := by
  have hbne : ((selectedKps kp_start kp_end kps_lin).length
      != (selectedEnergies band kp_start kp_end E).length) = false := by
    rw [hlen]
    simp
  have hA := fitA_of_least_squares _ _ a b c hlen hdet hfit
  unfold get_reduced_effective_mass
  simp only [hne, hbne, Bool.false_eq_true, if_false, hA]

/-- Witness for C4_effective_mass on axis [0, 1, 2], energies [4, 1, 4],
band 0, range 0..2, with fit coefficients a = 3, b = -6, c = 4. -/
theorem C4_witness :
    get_reduced_effective_mass 0 0 2 [0, 1, 2] [[4], [1], [4]]
      = .ok (h_bar ^ 2 / (e_charge * 3 / (2 * Real.pi / scaling_const) ^ 2)
        / m_e) :=
  C4_effective_mass 0 0 2 [0, 1, 2] [[4], [1], [4]] 3 (-6) 4 rfl rfl
    (by
      show normalDet [0, 1, 2] ≠ 0
      norm_num [normalDet, powSum])
    (by
      show IsLeastSquaresFit [0, 1, 2] [4, 1, 4] 3 (-6) 4
      intro a2 b2 c2
      have h0 : residualSum [0, 1, 2] [4, 1, 4] 3 (-6) 4 = 0 := by
        norm_num [residualSum]
      rw [h0]
      exact residualSum_nonneg _ _ _ _ _)

/-- C7 counterexample: the claim says a range of fewer than 3 k-points fails
with UnderdeterminedFit, and a numerically singular fit fails with
SingularFit. On the 2-point range [0, 1] (whose normal matrix is singular)
get_reduced_effective_mass still returns a value: np.polyfit only warns on
rank deficiency, and bs.py lines 59-63 contain no precondition check at
all. -/
theorem C7_counterexample :
    (get_reduced_effective_mass 0 0 1 [0, 1] [[0], [1]]).isOk = true ∧
    (selectedKps 0 1 [0, 1]).length = 2 ∧
    normalDet (selectedKps 0 1 [0, 1]) = 0 := by
  refine ⟨rfl, rfl, ?_⟩
  show normalDet [0, 1] = 0
  norm_num [normalDet, powSum]

/-- C7 (amended): get_reduced_effective_mass performs no fit-precondition
checks. It returns a value exactly when the selected range is nonempty and
the two sample slices have equal length (np.polyfit raises TypeError
otherwise), regardless of how few or how degenerate the selected k-points
are; in particular no UnderdeterminedFit or SingularFit error path exists. -/
theorem C7_no_fit_guards (band kp_start kp_end : ℕ) (kps_lin : List ℝ)
    (E : List (List ℝ)) :
    ((∃ r, get_reduced_effective_mass band kp_start kp_end kps_lin E = .ok r)
      ↔ ((selectedKps kp_start kp_end kps_lin).isEmpty = false ∧
        (selectedKps kp_start kp_end kps_lin).length
          = (selectedEnergies band kp_start kp_end E).length)) ∧
    ((selectedKps kp_start kp_end kps_lin).isEmpty = true →
      get_reduced_effective_mass band kp_start kp_end kps_lin E
        = .error .typeError) := by
  unfold get_reduced_effective_mass
  by_cases h1 : (selectedKps kp_start kp_end kps_lin).isEmpty
  · simp [h1]
  · by_cases h2 : (selectedKps kp_start kp_end kps_lin).length
        = (selectedEnergies band kp_start kp_end E).length
    · simp [h1, h2]
    · simp [h1, h2]

/-- Witness for C7_no_fit_guards at band 0, range 0..1, axis [0, 1] and
energy table [[0], [1]]. -/
theorem C7_witness :
    ((∃ r, get_reduced_effective_mass 0 0 1 [0, 1] [[0], [1]] = .ok r)
      ↔ ((selectedKps 0 1 [0, 1]).isEmpty = false ∧
        (selectedKps 0 1 [0, 1]).length
          = (selectedEnergies 0 0 1 [[0], [1]]).length)) ∧
    ((selectedKps 0 1 [0, 1]).isEmpty = true →
      get_reduced_effective_mass 0 0 1 [0, 1] [[0], [1]]
        = .error .typeError) :=
  C7_no_fit_guards 0 0 1 [0, 1] [[0], [1]]

/-- Witness for C6_kpoint_count_check at N = 2, one section, 2 k-points. -/
theorem C6_witness :
    (checkKpCountXml 2 1 2 = .ok () ↔ 2 * 1 = 2) ∧
    (checkKpCountXml 2 1 2 = .error .assertKpMismatch ↔ 2 * 1 ≠ 2) ∧
    (bsAxisEigenval [⟨0, 0, 0⟩, ⟨1, 0, 0⟩] 2 2).length = 2 * (2 / 2) :=
  C6_kpoint_count_check 2 1 2 [⟨0, 0, 0⟩, ⟨1, 0, 0⟩]

/-- C8 counterexample: the claim says label-resolution failure is non-fatal
in every input format. In the EIGENVAL (tabular) format with no explicit
labels and an OUTCAR lacking the marker line, no source can provide the
labels and the pipeline aborts (the coordinate read f.next() raises
StopIteration) instead of completing with empty labels; with OUTCAR absent
it aborts with IOError even when explicit labels were supplied. -/
theorem C8_counterexample :
    eigenvalLabelsAndKps none (some none) 2 = .error .stopIteration ∧
    eigenvalLabelsAndKps (some ["G", "X"]) none 2 = .error .ioError := by
  exact ⟨rfl, rfl⟩

/-- C8 (amended): only the xml format treats label resolution as non-fatal:
with no explicit labels and the marker line or the sidecars absent it
completes with the labels left unset. In the EIGENVAL format the label
source doubles as the coordinate source, so a missing OUTCAR aborts with
IOError and an OUTCAR without the marker line aborts with StopIteration for
every positive k-point count, even when explicit labels were supplied. -/
theorem C8_label_resolution (explicit : Option (List String))
    (kpointsFirstLine : Option (List String)) (N_kps : ℕ) (hN : 1 ≤ N_kps) :
    resolveLabels_xml none (some none) kpointsFirstLine = none ∧
    resolveLabels_xml none none none = none ∧
    eigenvalLabelsAndKps explicit none N_kps = .error .ioError ∧
    eigenvalLabelsAndKps explicit (some none) N_kps = .error .stopIteration := by
  have hz : N_kps ≠ 0 := by omega
  exact ⟨rfl, rfl, rfl, by simp [eigenvalLabelsAndKps, hz]⟩

/-- Witness for C8_label_resolution with explicit labels [G, X], a present
KPOINTS, and 2 k-points. -/
theorem C8_witness :
    resolveLabels_xml none (some none) (some ["G", "X"]) = none ∧
    resolveLabels_xml none none none = none ∧
    eigenvalLabelsAndKps (some ["G", "X"]) none 2 = .error .ioError ∧
    eigenvalLabelsAndKps (some ["G", "X"]) (some none) 2
      = .error .stopIteration :=
  C8_label_resolution (some ["G", "X"]) (some ["G", "X"]) 2 (by decide)

end PydassVasp
